
import Mathlib

/-
Verification development for the TensileOS repository.

The repository ships an Arduino firmware (src/src/main.cpp) that samples a
load cell, tracks the peak force, and emits readings over serial in CSV or
JSON form, together with a desktop companion application (TensileCompanion,
documented in the repository but whose Python sources are not part of the
source tree here) that persists test records as text files organised in
date folders, offers tri-state selection over them, aggregates statistics
and paginates reports.

Conventions of the shallow embedding:
  * text is modelled as lists of characters; a file is a list of lines
    (each line a list of characters, `Str` below);
  * firmware floats appear only in comparisons and copies, so they are
    modelled as rationals; values written at a fixed number of decimals
    are modelled as scaled integers (thousandths for three decimals);
  * fallible operations return `Option` or `Except`.
Components whose code is absent from the source tree are modelled from the
specification; their doc comments start with "Modelled from the spec:".
-/

set_option maxRecDepth 10000

namespace TensileOS

/-- Text is modelled character by character; a `Str` is one line of text. -/
abbrev Str := List Char

/-! ## Decimal digit characters -/

/-- The character for a single decimal digit (`0 ↦ '0'`, …, `9 ↦ '9'`). -/
def digitToChar (d : Nat) : Char := Char.ofNat (48 + d)

/-- The numeric value of a decimal digit character. -/
def charToDigit (c : Char) : Nat := c.toNat - 48

/-- Whether a character is a decimal digit `'0'`-`'9'`. -/
def isDigitCh (c : Char) : Bool := decide (48 ≤ c.toNat) && decide (c.toNat ≤ 57)

/-! ## Rendering and reading natural numbers in decimal -/

/-- Big-endian decimal rendering of a natural number, driven by fuel
(the fuel is always at least the number, which suffices). -/
def formatNatAux : Nat → Nat → Str
  | 0, n => [digitToChar n]
  | fuel + 1, n =>
    if n < 10 then [digitToChar n]
    else formatNatAux fuel (n / 10) ++ [digitToChar (n % 10)]

/-- Big-endian decimal rendering of a natural number. -/
def formatNat (n : Nat) : Str := formatNatAux n n

/-- The value read back from a big-endian string of digit characters. -/
def digitsVal (cs : Str) : Nat := cs.foldl (fun a c => 10 * a + charToDigit c) 0

/-- Reading a non-empty all-digit string; anything else is rejected. -/
def parseNatD (cs : Str) : Option Nat :=
  if cs.isEmpty then Option.none
  else if cs.all isDigitCh then Option.some (digitsVal cs) else Option.none

/-! ## Zero-padded rendering -/

/-- Left-pad the decimal rendering of `n` with zeros to width `w`. -/
def padNat (w n : Nat) : Str :=
  List.replicate (w - (formatNat n).length) '0' ++ formatNat n

/-! ## Splitting a line at a separator character -/

/-- Split a character list at every occurrence of `sep`; the separator is
dropped and the result is never empty. -/
def splitOnChar (sep : Char) : Str → List Str
  | [] => [[]]
  | c :: cs =>
    let r := splitOnChar sep cs
    if c = sep then [] :: r
    else
      match r with
      | [] => [[c]]
      | h :: t => (c :: h) :: t

/-! ## Dropping a known leading pattern -/

/-- If `cs` starts with the pattern `p`, return the remainder, else nothing. -/
def chopStart : Str → Str → Option Str
  | [], cs => Option.some cs
  | _ :: _, [] => Option.none
  | p :: ps, c :: cs => if p = c then chopStart ps cs else Option.none

/-! ## Fixed-point decimal rendering of scaled integers

An integer `m` is read as the value `m / 10 ^ w` and rendered with exactly
`w` digits after the decimal point (the file format writes forces with
three decimals and timestamps with millisecond precision). -/

/-- Render the scaled integer `m` (value `m / 10^w`) with `w` decimals. -/
def formatFixed (w : Nat) (m : Int) : Str :=
  (if m < 0 then ['-'] else []) ++
    formatNat (m.natAbs / 10 ^ w) ++ '.' :: padNat w (m.natAbs % 10 ^ w)

/-- Read a non-negative fixed-point number with exactly `w` decimals back
into its scaled integer value. -/
def parseNonneg (w : Nat) (cs : Str) : Option Nat :=
  match splitOnChar '.' cs with
  | [ip, fp] =>
    if fp.length = w then
      match parseNatD ip, parseNatD fp with
      | Option.some i, Option.some f => Option.some (10 ^ w * i + f)
      | _, _ => Option.none
    else Option.none
  | _ => Option.none

/-- Read a fixed-point number with exactly `w` decimals, allowing a sign. -/
def parseFixed (w : Nat) (cs : Str) : Option Int :=
  if cs.head? = Option.some '-' then
    (parseNonneg w (cs.drop 1)).map (fun n => -(n : Int))
  else (parseNonneg w cs).map (fun n => (n : Int))

/-! ## Timestamps of record creation

The file format stores `datetime` as `YYYY-MM-DD HH:MM:SS`. -/

/-- A wall-clock timestamp as stored in a record header. -/
structure DateTime where
  year : Nat
  month : Nat
  day : Nat
  hour : Nat
  minute : Nat
  second : Nat
deriving DecidableEq

/-- The `YYYY-MM-DD` part of a rendered timestamp. -/
def formatDate (dt : DateTime) : Str :=
  padNat 4 dt.year ++ '-' :: (padNat 2 dt.month ++ '-' :: padNat 2 dt.day)

/-- The `HH:MM:SS` part of a rendered timestamp. -/
def formatTime (dt : DateTime) : Str :=
  padNat 2 dt.hour ++ ':' :: (padNat 2 dt.minute ++ ':' :: padNat 2 dt.second)

/-- Render a timestamp as `YYYY-MM-DD HH:MM:SS`. -/
def formatDateTime (dt : DateTime) : Str := formatDate dt ++ ' ' :: formatTime dt

/-- Read a `YYYY-MM-DD HH:MM:SS` timestamp back. -/
def parseDateTime (cs : Str) : Option DateTime :=
  match splitOnChar ' ' cs with
  | [d, t] =>
    match splitOnChar '-' d, splitOnChar ':' t with
    | [ys, ms, ds], [hs, mis, ss] =>
      match parseNatD ys, parseNatD ms, parseNatD ds,
            parseNatD hs, parseNatD mis, parseNatD ss with
      | Option.some a, Option.some b, Option.some c,
        Option.some d2, Option.some e, Option.some f =>
        Option.some ⟨a, b, c, d2, e, f⟩
      | _, _, _, _, _, _ => Option.none
    | _, _ => Option.none
  | _ => Option.none

/-! ## Record samples and data rows

Sample values (elapsed seconds, current force, peak force) are written with
three decimals, so they are embedded as integers counting thousandths. -/

/-- One sample row of a record: elapsed time and forces in thousandths. -/
structure Sample where
  t : Int
  c : Int
  p : Int
deriving DecidableEq

/-- Render one data row `timestamp_s,current_kN,peak_kN`. -/
def formatRow (s : Sample) : Str :=
  formatFixed 3 s.t ++ ',' :: (formatFixed 3 s.c ++ ',' :: formatFixed 3 s.p)

/-- Read one data row back. -/
def parseRow (cs : Str) : Option Sample :=
  match splitOnChar ',' cs with
  | [a, b, c] =>
    match parseFixed 3 a, parseFixed 3 b, parseFixed 3 c with
    | Option.some x, Option.some y, Option.some z => Option.some ⟨x, y, z⟩
    | _, _, _ => Option.none
  | _ => Option.none

/-! ## Test records and the record codec

Modelled from the spec: the Record Codec of the companion application is not
part of the source tree (only its documentation is), so `encode` and `decode`
below are modelled from the specification: a header block of
comment-marker-prefixed `key: value` lines in the fixed order `test_name`,
`technician`, `datetime`, `notes`, `peak_force`, then the column header line
`timestamp_s,current_kN,peak_kN`, then one data line per sample; `decode`
parses header lines by key (any order), defaults a missing `notes` to empty,
tolerates zero data rows, and fails with `MalformedRecordError` when a
required key is missing or `datetime`/`peak_force` cannot be parsed. -/

/-- One completed tensile test: metadata and sample table.
`peak_force` is in thousandths of a kN (three written decimals). -/
structure TestRecord where
  name : Str
  technician : Str
  notes : Str
  created_at : DateTime
  peak_force : Int
  samples : List Sample
deriving DecidableEq

/-- A record file that cannot be parsed (missing required key or bad value). -/
structure MalformedRecordError where
  reason : String
deriving DecidableEq

/-- Header-line marker and key for `test_name`. -/
def hdrTestName : Str := ['#', ' ', 't', 'e', 's', 't', '_', 'n', 'a', 'm', 'e', ':', ' ']

/-- Header-line marker and key for `technician`. -/
def hdrTech : Str := ['#', ' ', 't', 'e', 'c', 'h', 'n', 'i', 'c', 'i', 'a', 'n', ':', ' ']

/-- Header-line marker and key for `datetime`. -/
def hdrDatetime : Str := ['#', ' ', 'd', 'a', 't', 'e', 't', 'i', 'm', 'e', ':', ' ']

/-- Header-line marker and key for `notes`. -/
def hdrNotes : Str := ['#', ' ', 'n', 'o', 't', 'e', 's', ':', ' ']

/-- Header-line marker and key for `peak_force`. -/
def hdrPeak : Str := ['#', ' ', 'p', 'e', 'a', 'k', '_', 'f', 'o', 'r', 'c', 'e', ':', ' ']

/-- The column header line separating metadata from the data section. -/
def colHeaderL : Str :=
  ['t', 'i', 'm', 'e', 's', 't', 'a', 'm', 'p', '_', 's', ',',
   'c', 'u', 'r', 'r', 'e', 'n', 't', '_', 'k', 'N', ',',
   'p', 'e', 'a', 'k', '_', 'k', 'N']

/-- Modelled from the spec: the companion's Record Codec `encode` (its
Python source is absent).  Serialise a record to its lines: five header
lines in fixed key order, the column header, then one line per sample. -/
def encode (r : TestRecord) : List Str :=
  (hdrTestName ++ r.name) ::
  (hdrTech ++ r.technician) ::
  (hdrDatetime ++ formatDateTime r.created_at) ::
  (hdrNotes ++ r.notes) ::
  (hdrPeak ++ formatFixed 3 r.peak_force) ::
  colHeaderL ::
  r.samples.map formatRow

/-- Look a header key up among the header lines (order-independent). -/
def findField (key : Str) (hdr : List Str) : Option Str :=
  hdr.findSome? (chopStart key)

/-- Turn a missing optional value into a `MalformedRecordError`. -/
def orFail {α : Type} (o : Option α) (msg : String) :
    Except MalformedRecordError α :=
  o.elim (Except.error ⟨msg⟩) Except.ok

/-- Parse the data section: every line must be a well-formed data row. -/
def parseRows : List Str → Except MalformedRecordError (List Sample)
  | [] => Except.ok []
  | l :: ls =>
    Except.bind (orFail (parseRow l) "malformed data row") fun s =>
    Except.bind (parseRows ls) fun ss =>
    Except.ok (s :: ss)

/-- Modelled from the spec: the companion's Record Codec `decode` (its
Python source is absent).  Deserialise a record from its lines: header lines
are parsed by key, the optional `notes` defaults to empty, a data section
with zero rows is fine, and a missing required key or unparseable
`datetime`/`peak_force` fails. -/
def decode (lines : List Str) : Except MalformedRecordError TestRecord :=
  let hdr := lines.takeWhile (fun l => decide (l ≠ colHeaderL))
  let body := (lines.dropWhile (fun l => decide (l ≠ colHeaderL))).drop 1
  Except.bind (orFail (findField hdrTestName hdr) "missing test_name") fun nm =>
  Except.bind (orFail (findField hdrTech hdr) "missing technician") fun te =>
  Except.bind (orFail (findField hdrDatetime hdr) "missing datetime") fun ds =>
  Except.bind (orFail (parseDateTime ds) "bad datetime") fun dt =>
  Except.bind (orFail (findField hdrPeak hdr) "missing peak_force") fun ps =>
  Except.bind (orFail (parseFixed 3 ps) "bad peak_force") fun pf =>
  Except.bind (parseRows body) fun smp =>
  Except.ok ⟨nm, te, (findField hdrNotes hdr).getD [], dt, pf, smp⟩

/-- A record is representable in the line-oriented file format as long as no
text field smuggles in a line break. -/
def TestRecord.Valid (r : TestRecord) : Prop :=
  '\n' ∉ r.name ∧ '\n' ∉ r.technician ∧ '\n' ∉ r.notes

instance {ε α : Type} [DecidableEq ε] [DecidableEq α] :
    DecidableEq (Except ε α) := fun x y =>
  match x, y with
  | Except.error u, Except.error v =>
    if h : u = v then Decidable.isTrue (h ▸ rfl)
    else Decidable.isFalse (fun hc => h (Except.error.inj hc))
  | Except.error _, Except.ok _ => Decidable.isFalse (fun hc => Except.noConfusion hc)
  | Except.ok _, Except.error _ => Decidable.isFalse (fun hc => Except.noConfusion hc)
  | Except.ok u, Except.ok v =>
    if h : u = v then Decidable.isTrue (h ▸ rfl)
    else Decidable.isFalse (fun hc => h (Except.ok.inj hc))

/-! ## The Test Store directory scan

Modelled from the spec: the Test Store's `scan` walks the immediate
subdirectories of the root that match the date-folder name pattern
(`YYYY-MM-DD`), decodes every contained file with the Record Codec, skips
files that fail with `MalformedRecordError` instead of failing the whole
scan, and collects those failures into a separate diagnostics list returned
alongside the tree.  A directory tree is modelled as a list of
(folder name, files) pairs, a file as a name plus its lines. -/

/-- One file found on disk: its name and its lines. -/
structure ScanFile where
  fname : Str
  content : List Str
deriving DecidableEq

/-- One skipped file reported by a scan: where it was and why it failed. -/
structure ScanDiagnostic where
  folder : Str
  fname : Str
  err : MalformedRecordError
deriving DecidableEq

/-- Whether a directory name matches the `YYYY-MM-DD` date-folder pattern. -/
def isDateFolderName (s : Str) : Bool :=
  match s with
  | [a, b, c, d, e, f, g, h, i, j] =>
    isDigitCh a && isDigitCh b && isDigitCh c && isDigitCh d &&
    decide (e = '-') && isDigitCh f && isDigitCh g && decide (h = '-') &&
    isDigitCh i && isDigitCh j
  | _ => false

/-- The records of one folder: every file that decodes, in file order. -/
def scanFolderRecords (files : List ScanFile) : List TestRecord :=
  files.filterMap (fun f => (decode f.content).toOption)

/-- The diagnostics of one folder: every file that fails to decode. -/
def scanFolderDiags (folder : Str) (files : List ScanFile) : List ScanDiagnostic :=
  files.filterMap (fun f =>
    match decode f.content with
    | Except.error e => Option.some ⟨folder, f.fname, e⟩
    | Except.ok _ => Option.none)

/-- Modelled from the spec: the Test Store's `scan` (its Python source is
absent).  Scan a root directory: keep the date folders, decode their files,
and return the tree of decoded records together with the diagnostics
list. -/
def scan (dirs : List (Str × List ScanFile)) :
    List (Str × List TestRecord) × List ScanDiagnostic :=
  let matching := dirs.filter (fun d => isDateFolderName d.1)
  (matching.map (fun d => (d.1, scanFolderRecords d.2)),
   (matching.map (fun d => scanFolderDiags d.1 d.2)).flatten)

/-! ## Concrete scan scenario

A date folder holding three files, two valid and one missing its
`technician` line, used to exercise the scan behaviour on concrete data. -/

/-- The date-folder name `2024-01-15`. -/
def demoFolderName : Str := ['2', '0', '2', '4', '-', '0', '1', '-', '1', '5']

/-- A first valid record. -/
def demoRecA : TestRecord :=
  { name := ['A'], technician := ['J', 'o'], notes := [],
    created_at := ⟨2024, 1, 15, 14, 30, 45⟩, peak_force := 24567,
    samples := [⟨0, 125, 125⟩, ⟨500, 342, 342⟩] }

/-- A second valid record. -/
def demoRecB : TestRecord :=
  { name := ['B'], technician := ['J', 'o'], notes := ['o', 'k'],
    created_at := ⟨2024, 1, 15, 15, 3, 30⟩, peak_force := 21001,
    samples := [] }

/-- A malformed file: its `technician` header line is missing. -/
def demoBadFile : ScanFile :=
  { fname := ['b', 'a', 'd'],
    content :=
      [hdrTestName ++ ['C'],
       hdrDatetime ++ formatDateTime ⟨2024, 1, 15, 16, 0, 0⟩,
       hdrNotes,
       hdrPeak ++ formatFixed 3 19250,
       colHeaderL] }

/-- The scanned root: one matching date folder with three files. -/
def demoDirs : List (Str × List ScanFile) :=
  [(demoFolderName,
    [⟨['a'], encode demoRecA⟩, demoBadFile, ⟨['b'], encode demoRecB⟩])]

/-! ## The Selection Tree

Modelled from the spec: the in-memory tri-state selection model (root →
date folder → test leaf) of the companion application is not part of the
source tree.  Following the spec, each mutation (`toggle_leaf`,
`toggle_folder`, `toggle_root`) is followed by a re-derivation pass that
recomputes every folder state and the root state from the leaf selections;
an explicitly toggled folder sets all its children to the folder's new
binary target, where a `some` state resolves to select-all. -/

/-- Tri-state selection value of a folder or of the root. -/
inductive TriState where
  | none
  | some
  | all
deriving DecidableEq

/-- A selectable test leaf: the record's identifier and its binary state. -/
structure SelLeaf where
  rid : Nat
  selected : Bool
deriving DecidableEq

/-- A date-folder node of the selection tree. -/
structure SelFolder where
  dname : Str
  leaves : List SelLeaf
  state : TriState
deriving DecidableEq

/-- The whole selection tree: date folders plus the root's tri-state. -/
structure SelTree where
  folders : List SelFolder
  rootState : TriState
deriving DecidableEq

/-- Derive a tri-state from a list of leaf selections: `all` when every one
is selected, `none` when none is, `some` otherwise. -/
def deriveTri (bs : List Bool) : TriState :=
  if bs.all (fun b => b) then TriState.all
  else if bs.all (fun b => !b) then TriState.none
  else TriState.some

/-- Recompute one folder's tri-state from its leaves. -/
def deriveFolder (f : SelFolder) : SelFolder :=
  { f with state := deriveTri (f.leaves.map (fun l => l.selected)) }

/-- All leaves of the tree, in folder order. -/
def allLeaves (t : SelTree) : List SelLeaf :=
  (t.folders.map (fun f => f.leaves)).flatten

/-- Modelled from the spec: the Selection Tree's re-derivation pass (its
Python source is absent): recompute every folder state and the root state
from the current leaf selections. -/
def deriveTree (t : SelTree) : SelTree :=
  { folders := t.folders.map deriveFolder,
    rootState := deriveTri ((allLeaves t).map (fun l => l.selected)) }

/-- One selection mutation. -/
inductive SelOp where
  | leaf (rid : Nat)
  | folder (dname : Str)
  | root
deriving DecidableEq

/-- Flip the binary state of the leaf with the given identifier. -/
def rawToggleLeaf (rid : Nat) (t : SelTree) : SelTree :=
  { t with
    folders := t.folders.map fun f =>
      { f with
        leaves := f.leaves.map fun l =>
          if l.rid = rid then { l with selected := !l.selected } else l } }

/-- Set every leaf of the named folder to the folder's new binary target:
deselect all when the folder was `all`, otherwise select all
(a `some` click resolves to `all`). -/
def rawToggleFolder (dn : Str) (t : SelTree) : SelTree :=
  { t with
    folders := t.folders.map fun f =>
      if f.dname = dn then
        { f with
          leaves := f.leaves.map fun l =>
            { l with selected := decide (f.state ≠ TriState.all) } }
      else f }

/-- Set every leaf of the tree to the root's new binary target. -/
def rawToggleRoot (t : SelTree) : SelTree :=
  { t with
    folders := t.folders.map fun f =>
      { f with
        leaves := f.leaves.map fun l =>
          { l with selected := decide (t.rootState ≠ TriState.all) } } }

/-- Modelled from the spec: the Selection Tree's `toggle_leaf`,
`toggle_folder` and `toggle_root` (their Python source is absent), each
followed by the re-derivation pass. -/
def applyOp (t : SelTree) (op : SelOp) : SelTree :=
  deriveTree
    (match op with
     | SelOp.leaf rid => rawToggleLeaf rid t
     | SelOp.folder dn => rawToggleFolder dn t
     | SelOp.root => rawToggleRoot t)

/-- Apply a finite sequence of toggles. -/
def applyOps (t : SelTree) (ops : List SelOp) : SelTree := ops.foldl applyOp t

/-- Number the records of one scanned folder as selection leaves, all
initially unselected, starting at identifier `n`. -/
def buildFolders : Nat → List (Str × List TestRecord) → List SelFolder
  | _, [] => []
  | n, (d, recs) :: rest =>
    { dname := d,
      leaves := (List.range recs.length).map (fun i => ⟨n + i, false⟩),
      state := TriState.none } :: buildFolders (n + recs.length) rest

/-- Build the selection tree from a scan result: every record becomes an
unselected leaf and all states are derived. -/
def buildTree (scanned : List (Str × List TestRecord)) : SelTree :=
  deriveTree { folders := buildFolders 0 scanned, rootState := TriState.none }

/-- The structural invariant maintained by the re-derivation pass: every
folder state and the root state agree with what the leaves derive. -/
def DerivedStates (t : SelTree) : Prop :=
  (∀ f ∈ t.folders, f.state = deriveTri (f.leaves.map (fun l => l.selected))) ∧
  t.rootState = deriveTri ((allLeaves t).map (fun l => l.selected))

/-- A scanned root whose single date folder holds no decodable test at all;
its selection folder therefore has zero leaves. -/
def demoEmptyDirs : List (Str × List ScanFile) := [(demoFolderName, [])]

/-! ## The Statistics Engine

Modelled from the spec: the Statistics Engine of the companion application
is not part of the source tree.  `summarize` requires at least two records
(`InsufficientSamplesError` otherwise), takes the arithmetic mean of the
peak forces, the sample standard deviation (N−1 denominator), the standard
median, per-record deviations from the mean, and sorts the per-record list
chronologically.  The standard deviation is carried as its exact square
(`stdev_sq`); the 3-sigma bounds `mean ∓ 3·√stdev_sq` are reasoned about
through that square. -/

/-- Statistics were requested on fewer than two records. -/
inductive InsufficientSamplesError where
  | insufficient
deriving DecidableEq

/-- A record's peak force in kN (the stored value counts thousandths). -/
def TestRecord.peak_kN (r : TestRecord) : ℚ := (r.peak_force : ℚ) / 1000

/-- Insert into a sorted list of rationals. -/
def insertSortedQ (q : ℚ) : List ℚ → List ℚ
  | [] => [q]
  | x :: xs => if q ≤ x then q :: x :: xs else x :: insertSortedQ q xs

/-- Sort a list of rationals ascending (insertion sort). -/
def sortQ (l : List ℚ) : List ℚ := l.foldr insertSortedQ []

/-- Chronological sort key of a timestamp. -/
def DateTime.key (d : DateTime) : Nat :=
  ((((d.year * 100 + d.month) * 100 + d.day) * 100 + d.hour) * 100 + d.minute)
    * 100 + d.second

/-- Insert into a per-record list sorted by creation time. -/
def insertByDate (x : TestRecord × ℚ) :
    List (TestRecord × ℚ) → List (TestRecord × ℚ)
  | [] => [x]
  | y :: ys =>
    if x.1.created_at.key ≤ y.1.created_at.key then x :: y :: ys
    else y :: insertByDate x ys

/-- Sort a per-record list by creation time ascending. -/
def sortByDate (l : List (TestRecord × ℚ)) : List (TestRecord × ℚ) :=
  l.foldr insertByDate []

/-- The immutable aggregate snapshot produced by `summarize`. -/
structure StatisticsReport where
  count : Nat
  mean : ℚ
  stdev_sq : ℚ
  minPeak : ℚ
  maxPeak : ℚ
  median : ℚ
  per_record : List (TestRecord × ℚ)
deriving DecidableEq

/-- Modelled from the spec: the Statistics Engine's `summarize` (its Python
source is absent).  Aggregate a set of records; fewer than two records is an
error. -/
def summarize (records : List TestRecord) :
    Except InsufficientSamplesError StatisticsReport :=
  if records.length < 2 then Except.error InsufficientSamplesError.insufficient
  else
    let peaks := records.map TestRecord.peak_kN
    let n : ℚ := (records.length : ℚ)
    let mean : ℚ := peaks.foldl (· + ·) 0 / n
    let sorted := sortQ peaks
    Except.ok
      { count := records.length
        mean := mean
        stdev_sq := (peaks.foldl (fun a q => a + (q - mean) ^ 2) 0) / (n - 1)
        minPeak := sorted.headD 0
        maxPeak := sorted.getLastD 0
        median :=
          if records.length % 2 = 1 then sorted.getD (records.length / 2) 0
          else
            (sorted.getD (records.length / 2 - 1) 0 +
              sorted.getD (records.length / 2) 0) / 2
        per_record := sortByDate (records.map (fun r => (r, r.peak_kN - mean))) }

/-- A record with peak force 20.0 kN (scenario data). -/
def recP20 : TestRecord :=
  { name := ['p', '1'], technician := ['t'], notes := [],
    created_at := ⟨2024, 1, 1, 10, 0, 0⟩, peak_force := 20000, samples := [] }

/-- A record with peak force 22.0 kN (scenario data). -/
def recP22 : TestRecord :=
  { name := ['p', '2'], technician := ['t'], notes := [],
    created_at := ⟨2024, 1, 2, 10, 0, 0⟩, peak_force := 22000, samples := [] }

/-- A record with peak force 30.0 kN (scenario data). -/
def recP30 : TestRecord :=
  { name := ['p', '3'], technician := ['t'], notes := [],
    created_at := ⟨2024, 1, 3, 10, 0, 0⟩, peak_force := 30000, samples := [] }

/-- The report the scenario `[20.0, 22.0, 30.0]` must produce. -/
def rep3 : StatisticsReport :=
  { count := 3, mean := 24, stdev_sq := 28, minPeak := 20, maxPeak := 30,
    median := 22,
    per_record := [(recP20, -4), (recP22, -2), (recP30, 6)] }

/-! ## The Report Paginator

Modelled from the spec: the Report Paginator of the companion application is
not part of the source tree.  `paginate` first splits the per-record rows
into pages of the fixed page capacity; if that naive split would leave a
final page with fewer than `min_rows_per_page` rows and more than one page
exists, rows are redistributed backward from the penultimate page so the
last page reaches the minimum when the penultimate page can spare them, and
the two pages are merged otherwise. -/

/-- Chunk a list into pieces of `cap` elements (fuel-driven; the initial
length is always enough fuel). -/
def chunksAux {α : Type} (cap : Nat) : Nat → List α → List (List α)
  | 0, rows => [rows]
  | fuel + 1, rows =>
    if rows.length ≤ cap then [rows]
    else rows.take cap :: chunksAux cap fuel (rows.drop cap)

/-- The naive split into pages of `cap` rows (the last page may be short). -/
def chunksOf {α : Type} (cap : Nat) (rows : List α) : List (List α) :=
  chunksAux cap rows.length rows

/-- Fix a short trailing page: redistribute rows backward from the
penultimate page, or merge the last two pages. -/
def fixShortLast {α : Type} (cap m : Nat) : List (List α) → List (List α)
  | [] => []
  | [p] => [p]
  | [p, q] =>
    if m ≤ q.length then [p, q]
    else if 2 * m ≤ cap + q.length then
      [p.take (p.length - (m - q.length)),
       p.drop (p.length - (m - q.length)) ++ q]
    else [p ++ q]
  | p :: q :: r :: rest => p :: fixShortLast cap m (q :: r :: rest)

/-- Modelled from the spec: the Report Paginator's `paginate` (its Python
source is absent).  Lay a report's per-record rows into pages of capacity
`cap` with at least `m` rows per page whenever the total allows it. -/
def paginate (rep : StatisticsReport) (cap m : Nat) :
    List (List (TestRecord × ℚ)) :=
  fixShortLast cap m (chunksOf cap rep.per_record)

/-- Every page except a lone final one has exactly `cap` rows (the shape
`chunksOf` guarantees). -/
def GoodChunks {α : Type} (cap : Nat) : List (List α) → Prop
  | [] => True
  | [_] => True
  | p :: rest => p.length = cap ∧ GoodChunks cap rest

/-- A report with three per-record rows (pagination witness data). -/
def repW : StatisticsReport :=
  { count := 3, mean := 0, stdev_sq := 0, minPeak := 0, maxPeak := 0,
    median := 0, per_record := [(recP20, 0), (recP22, 0), (recP30, 0)] }

/-! ## The firmware measurement loop (src/src/main.cpp)

The firmware keeps `max_reading` and `test_start_time` as mutable state,
toggles `json_mode` and `pause_mode` from the serial menu, and in
measurement mode takes a reading, raises the peak when the reading reaches
it, and emits the pair through `outputReading`.  Readings are floats used
only in comparisons and copies, so they are modelled as rationals; serial
output renders floats with Arduino's default two decimals in CSV mode and
with three decimals in JSON mode, modelled by rounding to a scaled integer
and rendering it in fixed point. -/

/-- Round a rational to hundredths by adding one half and taking the floor
(what Arduino's two-decimal float printing does to the digits of the
non-negative readings at issue). -/
def round2 (q : ℚ) : Int := ⌊q * 100 + 1 / 2⌋

/-- Round a rational to thousandths. -/
def round3 (q : ℚ) : Int := ⌊q * 1000 + 1 / 2⌋

/-- A float as `Serial.print(v)` writes it: two decimals. -/
def print2 (q : ℚ) : Str := formatFixed 2 (round2 q)

/-- A float as `Serial.print(v, 3)` writes it: three decimals. -/
def print3 (q : ℚ) : Str := formatFixed 3 (round3 q)

/-- The opening brace, quoted key `timestamp` and colon of a JSON line. -/
def jsonKeyTs : Str :=
  ['\x7b', '"', 't', 'i', 'm', 'e', 's', 't', 'a', 'm', 'p', '"', ':']

/-- The quoted key `current` and colon (after the separating comma). -/
def jsonCurTail : Str := ['"', 'c', 'u', 'r', 'r', 'e', 'n', 't', '"', ':']

/-- The quoted key `peak` and colon (after the separating comma). -/
def jsonPeakTail : Str := ['"', 'p', 'e', 'a', 'k', '"', ':']

/-- Output one reading in CSV form: `current,peak`, two decimals each,
no timestamp. -/
def outputCSV (c p : ℚ) : Str := print2 c ++ ',' :: print2 p

/-- Output one reading in JSON form:
`{"timestamp":<s>,"current":<kN>,"peak":<kN>}`, three decimals each. -/
def outputJSON (t c p : ℚ) : Str :=
  jsonKeyTs ++ (print3 t ++
    ',' :: (jsonCurTail ++ (print3 c ++
      ',' :: (jsonPeakTail ++ (print3 p ++ ['\x7d'])))))

/-- Route output to the format selected by `json_mode`. -/
def outputReading (jsonMode : Bool) (ts c p : ℚ) : Str :=
  if jsonMode then outputJSON ts c p else outputCSV c p

/-- Read a JSON reading line back into scaled-integer (thousandths)
timestamp, current and peak. -/
def parseJSONLine (cs : Str) : Option (Int × Int × Int) :=
  (chopStart jsonKeyTs cs).bind fun rest =>
    match splitOnChar ',' rest with
    | [a, b, c] =>
      (parseFixed 3 a).bind fun x =>
        ((chopStart jsonCurTail b).bind (parseFixed 3)).bind fun y =>
          ((chopStart jsonPeakTail c).bind fun s =>
            if s.getLast? = Option.some '\x7d' then parseFixed 3 s.dropLast
            else Option.none).bind fun z =>
            Option.some (x, y, z)
    | _ => Option.none

/-- The firmware's mutable state: `json_mode`, `max_reading`,
`test_start_time` and `pause_mode`. -/
structure FWState where
  jsonMode : Bool
  maxReading : ℚ
  testStart : Nat
  pauseMode : Bool
deriving DecidableEq

/-- The parsed `(timestamp, current, peak)` tuple a reading carries. -/
structure EmitSample where
  t : ℚ
  c : ℚ
  p : ℚ
deriving DecidableEq

/-- One emitted reading: the parsed tuple and the serial line. -/
structure Emitted where
  sample : EmitSample
  line : Str
deriving DecidableEq

/-- One external event the firmware loop reacts to. -/
inductive FWEvent where
  | measure (now : Nat) (reading : ℚ)
  | menu (now : Nat) (c : Char)
  | escape
deriving DecidableEq

/-- One step of the firmware loop.  A measurement raises the peak when the
reading reaches it and emits the reading; in the pause menu, `x` clears the
peak and resets the test start time, `j` toggles the output format, and any
handled key leaves the menu. -/
def stepFW (st : FWState) : FWEvent → FWState × Option Emitted
  | FWEvent.measure now r =>
    if st.pauseMode then (st, Option.none)
    else
      let newMax := if st.maxReading ≤ r then r else st.maxReading
      let ts : ℚ := ((now - st.testStart : Nat) : ℚ) / 1000
      ({ st with maxReading := newMax },
       Option.some ⟨⟨ts, r, newMax⟩, outputReading st.jsonMode ts r newMax⟩)
  | FWEvent.menu now c =>
    if st.pauseMode then
      (if c = 'x' then
        { st with maxReading := 0, testStart := now, pauseMode := false }
       else if c = 'j' then { st with jsonMode := !st.jsonMode, pauseMode := false }
       else { st with pauseMode := false },
       Option.none)
    else (st, Option.none)
  | FWEvent.escape => ({ st with pauseMode := true }, Option.none)

/-- Run the firmware over a list of events, collecting the emissions. -/
def runFW : FWState → List FWEvent → FWState × List Emitted
  | st, [] => (st, [])
  | st, e :: es =>
    let s1 := stepFW st e
    let s2 := runFW s1.1 es
    (s2.1, s1.2.toList ++ s2.2)

/-- Measurement events from a list of (time, reading) pairs. -/
def measuresOf : List (Nat × ℚ) → List FWEvent
  | [] => []
  | m :: ms => FWEvent.measure m.1 m.2 :: measuresOf ms

/-- The emissions a run of measurements produces, spelled out: each carries
the elapsed time since `start`, the reading, and the raised peak. -/
def expectedRun (jm : Bool) (start : Nat) : ℚ → List (Nat × ℚ) → List Emitted
  | _, [] => []
  | a, m :: tl =>
    ⟨⟨((m.1 - start : Nat) : ℚ) / 1000, m.2, max a m.2⟩,
     outputReading jm (((m.1 - start : Nat) : ℚ) / 1000) m.2 (max a m.2)⟩ ::
    expectedRun jm start (max a m.2) tl

/-- The maximum of a list (none when empty). -/
def maxList? {α : Type} [LinearOrder α] : List α → Option α
  | [] => Option.none
  | x :: xs => Option.some (xs.foldl max x)

/-- The running maximum of a reading sequence over the baseline `a`. -/
def runningMax (a : ℚ) : List ℚ → List ℚ
  | [] => []
  | r :: rs => max a r :: runningMax (max a r) rs

/-- The running maximum of the readings alone (no baseline): what the phrase
"the maximum of all current readings so far" denotes. -/
def runningMaxOfReads : List ℚ → List ℚ
  | [] => []
  | r :: rs => r :: runningMax r rs

/-- Quantise an emitted sample to the three decimals the export writes. -/
def exportSample (e : EmitSample) : Sample := ⟨round3 e.t, round3 e.c, round3 e.p⟩

/-- Modelled from the spec: the companion's auto-export of a finished test
(its Python source is absent): the metadata, the final peak as
acquisition-time `peak_force`, and the emitted samples quantised to the
three decimals the file format writes. -/
def exportRecord (nm te no : Str) (dt : DateTime) (st : FWState)
    (outs : List Emitted) : TestRecord :=
  { name := nm, technician := te, notes := no, created_at := dt,
    peak_force := round3 st.maxReading,
    samples := outs.map (fun o => exportSample o.sample) }

/-- A fresh-test run: from a paused state, the menu key `x` starts a new
test (clearing the peak and resetting the test timer to `s`), followed by a
sequence of timed measurements. -/
def testRun (jm : Bool) (mr : ℚ) (ts0 s : Nat) (ms : List (Nat × ℚ)) :
    FWState × List Emitted :=
  runFW ⟨jm, mr, ts0, true⟩ (FWEvent.menu s 'x' :: measuresOf ms)

/-! ## Concrete witness data -/

/-- A record with empty notes and an empty sample table. -/
def recW2 : TestRecord :=
  { name := ['w'], technician := ['t'], notes := [],
    created_at := ⟨2024, 2, 3, 4, 5, 6⟩, peak_force := 1500, samples := [] }

/-- A two-record input for the statistics witness. -/
def pairW : List TestRecord := [recP20, recP22]

/-- The selection tree after select-all on the scanned demo folder. -/
def treeW : SelTree := applyOps (buildTree (scan demoDirs).1) [SelOp.root]

/-- Its single date folder. -/
def folderW : SelFolder := treeW.folders.headD ⟨[], [], TriState.none⟩

/-- Two timed nonnegative readings for the firmware witnesses. -/
def msW : List (Nat × ℚ) := [(6, 2), (7, 1)]

/-- Two timed readings with increasing clock values. -/
def msW9 : List (Nat × ℚ) := [(6, 1), (7, 2)]

/-- The record exported from the witness run. -/
def c3RecW : TestRecord :=
  exportRecord ['n'] ['t'] [] ⟨2024, 1, 1, 0, 0, 0⟩
    (testRun false 3 0 5 msW).1 (testRun false 3 0 5 msW).2

/-! # Theorem development

All definitions above; all proofs below. -/

theorem charToDigit_digitToChar {d : Nat} (h : d < 10) :
    charToDigit (digitToChar d) = d := by
  interval_cases d <;> rfl

theorem isDigitCh_digitToChar {d : Nat} (h : d < 10) :
    isDigitCh (digitToChar d) = true := by
  interval_cases d <;> rfl

theorem isDigitCh_toNat {c : Char} (h : isDigitCh c = true) :
    48 ≤ c.toNat ∧ c.toNat ≤ 57 := by
  simp only [isDigitCh, Bool.and_eq_true, decide_eq_true_eq] at h
  exact h

theorem ne_of_isDigitCh {c d : Char} (h : isDigitCh c = true)
    (hd : d.toNat < 48 ∨ 57 < d.toNat) : c ≠ d := by
  intro hcd
  obtain ⟨h1, h2⟩ := isDigitCh_toNat h
  subst hcd
  omega

theorem formatNatAux_ne_nil (fuel n : Nat) : formatNatAux fuel n ≠ [] := by
  cases fuel with
  | zero => simp [formatNatAux]
  | succ f =>
    by_cases h : n < 10 <;> simp [formatNatAux, h]

theorem formatNatAux_digits (fuel : Nat) :
    ∀ n, n ≤ fuel → ∀ c ∈ formatNatAux fuel n, isDigitCh c = true := by
  induction fuel with
  | zero =>
    intro n hn c hc
    interval_cases n
    simp only [formatNatAux, List.mem_singleton] at hc
    subst hc
    exact isDigitCh_digitToChar (by omega)
  | succ f ih =>
    intro n hn c hc
    by_cases h : n < 10
    · simp only [formatNatAux, if_pos h, List.mem_singleton] at hc
      subst hc
      exact isDigitCh_digitToChar h
    · simp only [formatNatAux, if_neg h, List.mem_append, List.mem_singleton] at hc
      rcases hc with hc | hc
      · exact ih (n / 10) (by omega) c hc
      · subst hc
        exact isDigitCh_digitToChar (Nat.mod_lt _ (by omega))

theorem formatNat_digits (n : Nat) : ∀ c ∈ formatNat n, isDigitCh c = true :=
  formatNatAux_digits n n le_rfl

theorem formatNat_ne_nil (n : Nat) : formatNat n ≠ [] := formatNatAux_ne_nil n n

theorem digitsVal_append (a b : Str) :
    digitsVal (a ++ b) = b.foldl (fun x c => 10 * x + charToDigit c) (digitsVal a) := by
  simp [digitsVal, List.foldl_append]

theorem formatNatAux_val (fuel : Nat) :
    ∀ n, n ≤ fuel → digitsVal (formatNatAux fuel n) = n := by
  induction fuel with
  | zero =>
    intro n hn
    interval_cases n
    simp [formatNatAux, digitsVal, charToDigit, digitToChar]
  | succ f ih =>
    intro n hn
    by_cases h : n < 10
    · simp [formatNatAux, if_pos h, digitsVal, charToDigit_digitToChar h]
    · have hdiv : n / 10 ≤ f := by
        have := Nat.div_lt_self (by omega : 0 < n) (by omega : 1 < 10)
        omega
      simp only [formatNatAux, if_neg h, digitsVal_append, ih (n / 10) hdiv]
      simp [digitsVal, List.foldl, charToDigit_digitToChar (Nat.mod_lt n (by omega))]
      omega

theorem digitsVal_formatNat (n : Nat) : digitsVal (formatNat n) = n :=
  formatNatAux_val n n le_rfl

theorem parseNatD_formatNat (n : Nat) : parseNatD (formatNat n) = Option.some n := by
  have hne : formatNat n ≠ [] := formatNat_ne_nil n
  have hdig : (formatNat n).all isDigitCh = true :=
    List.all_eq_true.2 (fun c hc => formatNat_digits n c hc)
  simp [parseNatD, List.isEmpty_iff, hne, hdig, digitsVal_formatNat]

theorem formatNatAux_length (fuel : Nat) :
    ∀ n k, n ≤ fuel → 1 ≤ k → n < 10 ^ k → (formatNatAux fuel n).length ≤ k := by
  induction fuel with
  | zero =>
    intro n k _ hk _
    simp only [formatNatAux, List.length_singleton]
    omega
  | succ f ih =>
    intro n k hn hk hnk
    by_cases h : n < 10
    · simp only [formatNatAux, if_pos h, List.length_singleton]
      omega
    · have hk2 : 2 ≤ k := by
        by_contra hcon
        have hk1 : k = 1 := by omega
        subst hk1
        simp at hnk
        omega
      have hdiv : n / 10 ≤ f := by
        have := Nat.div_lt_self (by omega : 0 < n) (by omega : 1 < 10)
        omega
      have hdivlt : n / 10 < 10 ^ (k - 1) := by
        have hpow : 10 ^ k = 10 ^ (k - 1) * 10 := by
          conv_lhs => rw [show k = (k - 1) + 1 by omega]
          rw [pow_succ]
        apply Nat.div_lt_of_lt_mul
        omega
      have := ih (n / 10) (k - 1) hdiv (by omega) hdivlt
      simp only [formatNatAux, if_neg h, List.length_append, List.length_singleton]
      omega

theorem formatNat_length_le {n k : Nat} (hk : 1 ≤ k) (h : n < 10 ^ k) :
    (formatNat n).length ≤ k :=
  formatNatAux_length n n k le_rfl hk h

theorem padNat_digits (w n : Nat) : ∀ c ∈ padNat w n, isDigitCh c = true := by
  intro c hc
  simp only [padNat, List.mem_append, List.mem_replicate] at hc
  rcases hc with ⟨_, hc⟩ | hc
  · subst hc; rfl
  · exact formatNat_digits n c hc

theorem digitsVal_replicate_zero (k : Nat) (cs : Str) :
    digitsVal (List.replicate k '0' ++ cs) = digitsVal cs := by
  induction k with
  | zero => simp
  | succ m ih =>
    simp only [List.replicate_succ, List.cons_append]
    simp only [digitsVal, List.foldl_cons] at ih ⊢
    have : 10 * 0 + charToDigit '0' = 0 := by rfl
    rw [this]
    exact ih

theorem digitsVal_padNat (w n : Nat) : digitsVal (padNat w n) = n := by
  simp [padNat, digitsVal_replicate_zero, digitsVal_formatNat]

theorem padNat_ne_nil (w n : Nat) : padNat w n ≠ [] := by
  simp only [padNat]
  intro h
  rcases List.append_eq_nil.1 h with ⟨_, h2⟩
  exact formatNat_ne_nil n h2

theorem parseNatD_padNat (w n : Nat) : parseNatD (padNat w n) = Option.some n := by
  have hne : padNat w n ≠ [] := padNat_ne_nil w n
  have hdig : (padNat w n).all isDigitCh = true :=
    List.all_eq_true.2 (fun c hc => padNat_digits w n c hc)
  simp [parseNatD, List.isEmpty_iff, hne, hdig, digitsVal_padNat]

theorem padNat_length {w n : Nat} (hw : 1 ≤ w) (h : n < 10 ^ w) :
    (padNat w n).length = w := by
  have := formatNat_length_le hw h
  simp only [padNat, List.length_append, List.length_replicate]
  omega

theorem splitOnChar_ne_nil (sep : Char) (cs : Str) : splitOnChar sep cs ≠ [] := by
  induction cs with
  | nil => simp [splitOnChar]
  | cons c cs ih =>
    by_cases h : c = sep
    · simp [splitOnChar, h]
    · simp only [splitOnChar, if_neg h]
      cases hr : splitOnChar sep cs with
      | nil => simp
      | cons a t => simp

theorem splitOnChar_of_not_mem {sep : Char} {cs : Str} (h : sep ∉ cs) :
    splitOnChar sep cs = [cs] := by
  induction cs with
  | nil => rfl
  | cons c cs ih =>
    have hc : c ≠ sep := fun hc => h (by simp [hc])
    have hcs : sep ∉ cs := fun hm => h (by simp [hm])
    simp only [splitOnChar, if_neg hc, ih hcs]

theorem splitOnChar_append {sep : Char} {a : Str} (b : Str) (h : sep ∉ a) :
    splitOnChar sep (a ++ sep :: b) = a :: splitOnChar sep b := by
  induction a with
  | nil => simp [splitOnChar]
  | cons c cs ih =>
    have hc : c ≠ sep := fun hc => h (by simp [hc])
    have hcs : sep ∉ cs := fun hm => h (by simp [hm])
    simp only [List.cons_append, splitOnChar, if_neg hc, List.append_eq, ih hcs]

theorem splitOnChar_two {sep : Char} {a b : Str} (ha : sep ∉ a) (hb : sep ∉ b) :
    splitOnChar sep (a ++ sep :: b) = [a, b] := by
  rw [splitOnChar_append b ha, splitOnChar_of_not_mem hb]

theorem splitOnChar_three {sep : Char} {a b c : Str}
    (ha : sep ∉ a) (hb : sep ∉ b) (hc : sep ∉ c) :
    splitOnChar sep (a ++ sep :: (b ++ sep :: c)) = [a, b, c] := by
  rw [splitOnChar_append _ ha, splitOnChar_two hb hc]

theorem chopStart_same : ∀ (p s : Str), chopStart p (p ++ s) = Option.some s := by
  intro p
  induction p with
  | nil => intro s; rfl
  | cons c cs ih => intro s; simp [chopStart, ih]

theorem dot_not_mem_formatNat (n : Nat) : '.' ∉ formatNat n := by
  intro h
  exact ne_of_isDigitCh (formatNat_digits n '.' h) (by decide) rfl

theorem dot_not_mem_padNat (w n : Nat) : '.' ∉ padNat w n := by
  intro h
  exact ne_of_isDigitCh (padNat_digits w n '.' h) (by decide) rfl

theorem formatFixed_eq_neg {m : Int} (hm : m < 0) (w : Nat) :
    formatFixed w m =
      '-' :: (formatNat (m.natAbs / 10 ^ w) ++ '.' :: padNat w (m.natAbs % 10 ^ w)) := by
  simp [formatFixed, hm]

theorem formatFixed_eq_nonneg {m : Int} (hm : ¬m < 0) (w : Nat) :
    formatFixed w m =
      formatNat (m.natAbs / 10 ^ w) ++ '.' :: padNat w (m.natAbs % 10 ^ w) := by
  simp [formatFixed, hm]

theorem parseNonneg_format {w : Nat} (hw : 1 ≤ w) (n : Nat) :
    parseNonneg w (formatNat (n / 10 ^ w) ++ '.' :: padNat w (n % 10 ^ w)) =
      Option.some n := by
  have hsplit : splitOnChar '.'
      (formatNat (n / 10 ^ w) ++ '.' :: padNat w (n % 10 ^ w)) =
      [formatNat (n / 10 ^ w), padNat w (n % 10 ^ w)] :=
    splitOnChar_two (dot_not_mem_formatNat (n / 10 ^ w))
      (dot_not_mem_padNat w (n % 10 ^ w))
  have hlen : (padNat w (n % 10 ^ w)).length = w :=
    padNat_length hw (Nat.mod_lt _ (by positivity))
  simp [parseNonneg, hsplit, hlen, parseNatD_formatNat, parseNatD_padNat]
  rw [Nat.div_add_mod]

theorem head_formatFixed_of_nonneg {m : Int} (h : ¬m < 0) (w : Nat) :
    ∃ c t, formatFixed w m = c :: t ∧ isDigitCh c = true := by
  obtain ⟨c, t, hct⟩ :=
    List.exists_cons_of_ne_nil (formatNat_ne_nil (m.natAbs / 10 ^ w))
  refine ⟨c, t ++ '.' :: padNat w (m.natAbs % 10 ^ w), ?_, ?_⟩
  · rw [formatFixed_eq_nonneg h, hct]
    rfl
  · exact formatNat_digits _ c (by rw [hct]; exact List.mem_cons_self c t)

theorem parseFixed_formatFixed {w : Nat} (hw : 1 ≤ w) (m : Int) :
    parseFixed w (formatFixed w m) = Option.some m := by
  by_cases hm : m < 0
  · rw [formatFixed_eq_neg hm]
    simp only [parseFixed, List.head?_cons, if_pos rfl, List.drop_one, List.tail_cons,
      parseNonneg_format hw]
    show Option.some (-(m.natAbs : Int)) = Option.some m
    rw [show -((m.natAbs : Int)) = m by omega]
  · obtain ⟨c, t, hct, hdig⟩ := head_formatFixed_of_nonneg hm w
    have hhead : (formatFixed w m).head? ≠ Option.some '-' := by
      rw [hct]
      simp only [List.head?_cons, ne_eq, Option.some.injEq]
      exact ne_of_isDigitCh hdig (by decide)
    rw [parseFixed, if_neg hhead, formatFixed_eq_nonneg hm, parseNonneg_format hw]
    show Option.some ((m.natAbs : Int)) = Option.some m
    rw [show ((m.natAbs : Int)) = m by omega]

theorem mem_formatFixed (w : Nat) (m : Int) :
    ∀ c ∈ formatFixed w m, c = '-' ∨ c = '.' ∨ isDigitCh c = true := by
  intro c hc
  by_cases hm : m < 0
  · rw [formatFixed_eq_neg hm] at hc
    rcases List.mem_cons.1 hc with h | h
    · left; exact h
    rcases List.mem_append.1 h with h | h
    · right; right; exact formatNat_digits _ c h
    rcases List.mem_cons.1 h with h | h
    · right; left; exact h
    · right; right; exact padNat_digits _ _ c h
  · rw [formatFixed_eq_nonneg hm] at hc
    rcases List.mem_append.1 hc with h | h
    · right; right; exact formatNat_digits _ c h
    rcases List.mem_cons.1 h with h | h
    · right; left; exact h
    · right; right; exact padNat_digits _ _ c h

theorem not_mem_formatFixed {d : Char} (hd1 : d ≠ '-') (hd2 : d ≠ '.')
    (hd3 : d.toNat < 48 ∨ 57 < d.toNat) (w : Nat) (m : Int) :
    d ∉ formatFixed w m := by
  intro h
  rcases mem_formatFixed w m d h with hc | hc | hc
  · exact hd1 hc
  · exact hd2 hc
  · exact ne_of_isDigitCh hc hd3 rfl

theorem not_mem_padNat {d : Char} (hd : d.toNat < 48 ∨ 57 < d.toNat) (w n : Nat) :
    d ∉ padNat w n := by
  intro h
  exact ne_of_isDigitCh (padNat_digits w n d h) hd rfl

theorem not_mem_formatDate {d : Char} (hd1 : d ≠ '-')
    (hd : d.toNat < 48 ∨ 57 < d.toNat) (dt : DateTime) : d ∉ formatDate dt := by
  intro h
  simp only [formatDate, List.mem_append, List.mem_cons] at h
  rcases h with h | h | h | h | h
  · exact not_mem_padNat hd _ _ h
  · exact hd1 h
  · exact not_mem_padNat hd _ _ h
  · exact hd1 h
  · exact not_mem_padNat hd _ _ h

theorem not_mem_formatTime {d : Char} (hd1 : d ≠ ':')
    (hd : d.toNat < 48 ∨ 57 < d.toNat) (dt : DateTime) : d ∉ formatTime dt := by
  intro h
  simp only [formatTime, List.mem_append, List.mem_cons] at h
  rcases h with h | h | h | h | h
  · exact not_mem_padNat hd _ _ h
  · exact hd1 h
  · exact not_mem_padNat hd _ _ h
  · exact hd1 h
  · exact not_mem_padNat hd _ _ h

theorem parseDateTime_format (dt : DateTime) :
    parseDateTime (formatDateTime dt) = Option.some dt := by
  have hsp : splitOnChar ' ' (formatDateTime dt) = [formatDate dt, formatTime dt] :=
    splitOnChar_two (not_mem_formatDate (by decide) (by decide) dt)
      (not_mem_formatTime (by decide) (by decide) dt)
  have hd : splitOnChar '-' (formatDate dt) =
      [padNat 4 dt.year, padNat 2 dt.month, padNat 2 dt.day] :=
    splitOnChar_three (not_mem_padNat (by decide) _ _)
      (not_mem_padNat (by decide) _ _) (not_mem_padNat (by decide) _ _)
  have ht : splitOnChar ':' (formatTime dt) =
      [padNat 2 dt.hour, padNat 2 dt.minute, padNat 2 dt.second] :=
    splitOnChar_three (not_mem_padNat (by decide) _ _)
      (not_mem_padNat (by decide) _ _) (not_mem_padNat (by decide) _ _)
  simp only [parseDateTime, hsp, hd, ht, parseNatD_padNat]

theorem comma_not_mem_formatFixed (w : Nat) (m : Int) : ',' ∉ formatFixed w m :=
  not_mem_formatFixed (by decide) (by decide) (by decide) w m

theorem parseRow_formatRow (s : Sample) : parseRow (formatRow s) = Option.some s := by
  have hsp : splitOnChar ',' (formatRow s) =
      [formatFixed 3 s.t, formatFixed 3 s.c, formatFixed 3 s.p] :=
    splitOnChar_three (comma_not_mem_formatFixed 3 s.t)
      (comma_not_mem_formatFixed 3 s.c) (comma_not_mem_formatFixed 3 s.p)
  simp only [parseRow, hsp, parseFixed_formatFixed (by omega : 1 ≤ 3)]

theorem parseRows_map (ss : List Sample) :
    parseRows (ss.map formatRow) = Except.ok ss := by
  induction ss with
  | nil => rfl
  | cons s ss ih =>
    simp only [List.map_cons, parseRows, parseRow_formatRow, ih]
    rfl

theorem decode_encode (r : TestRecord) : decode (encode r) = Except.ok r := by
  have h1 : parseDateTime (formatDateTime r.created_at) = Option.some r.created_at :=
    parseDateTime_format r.created_at
  have h2 : parseFixed 3 (formatFixed 3 r.peak_force) = Option.some r.peak_force :=
    parseFixed_formatFixed (by omega) r.peak_force
  have h3 : parseRows (r.samples.map formatRow) = Except.ok r.samples :=
    parseRows_map r.samples
  show Except.bind (orFail (parseDateTime (formatDateTime r.created_at)) "bad datetime")
      (fun dt =>
        Except.bind (orFail (parseFixed 3 (formatFixed 3 r.peak_force)) "bad peak_force")
          fun pf =>
            Except.bind (parseRows (r.samples.map formatRow)) fun smp =>
              Except.ok ⟨r.name, r.technician, r.notes, dt, pf, smp⟩) =
    Except.ok r
  rw [h1, h2]
  show Except.bind (parseRows (r.samples.map formatRow)) (fun smp =>
    Except.ok ⟨r.name, r.technician, r.notes, r.created_at, r.peak_force, smp⟩) =
    Except.ok r
  rw [h3]
  rfl

theorem scanFolder_counts (folder : Str) (files : List ScanFile) :
    (scanFolderRecords files).length + (scanFolderDiags folder files).length =
      files.length := by
  induction files with
  | nil => rfl
  | cons f fs ih =>
    cases hdec : decode f.content with
    | ok r =>
      simp only [scanFolderRecords, scanFolderDiags, List.filterMap_cons, hdec,
        Except.toOption] at ih ⊢
      simp only [List.length_cons]
      omega
    | error e =>
      simp only [scanFolderRecords, scanFolderDiags, List.filterMap_cons, hdec,
        Except.toOption] at ih ⊢
      simp only [List.length_cons]
      omega

theorem allLeaves_deriveTree (t : SelTree) : allLeaves (deriveTree t) = allLeaves t := by
  simp only [allLeaves, deriveTree, List.map_map]
  rfl

theorem derivedStates_deriveTree (t : SelTree) : DerivedStates (deriveTree t) := by
  constructor
  · intro f hf
    simp only [deriveTree, List.mem_map] at hf
    obtain ⟨g, _, hg⟩ := hf
    subst hg
    rfl
  · rw [allLeaves_deriveTree]
    rfl

theorem derivedStates_applyOps (ops : List SelOp) :
    ∀ t : SelTree, DerivedStates t → DerivedStates (applyOps t ops) := by
  induction ops with
  | nil => intro t ht; exact ht
  | cons op ops ih =>
    intro t _
    exact ih (applyOp t op) (derivedStates_deriveTree _)

theorem derivedStates_buildTree_applyOps
    (scanned : List (Str × List TestRecord)) (ops : List SelOp) :
    DerivedStates (applyOps (buildTree scanned) ops) :=
  derivedStates_applyOps ops (buildTree scanned) (derivedStates_deriveTree _)

theorem deriveTri_eq_all (bs : List Bool) :
    deriveTri bs = TriState.all ↔ ∀ b ∈ bs, b = true := by
  unfold deriveTri
  by_cases h1 : bs.all (fun b => b) = true
  · rw [if_pos h1]
    simp only [List.all_eq_true] at h1
    exact ⟨fun _ => h1, fun _ => rfl⟩
  · rw [if_neg h1]
    have hr : ¬∀ b ∈ bs, b = true := by
      intro hall
      exact h1 (List.all_eq_true.2 hall)
    by_cases h2 : bs.all (fun b => !b) = true
    · rw [if_pos h2]
      exact ⟨fun h => absurd h (by decide), fun h => absurd h hr⟩
    · rw [if_neg h2]
      exact ⟨fun h => absurd h (by decide), fun h => absurd h hr⟩

theorem deriveTri_eq_none {bs : List Bool} (hne : bs ≠ []) :
    deriveTri bs = TriState.none ↔ ∀ b ∈ bs, b = false := by
  unfold deriveTri
  by_cases h1 : bs.all (fun b => b) = true
  · rw [if_pos h1]
    obtain ⟨b, hb⟩ := List.exists_mem_of_ne_nil bs hne
    have hbt : b = true := List.all_eq_true.1 h1 b hb
    constructor
    · intro h; exact absurd h (by decide)
    · intro h
      rw [h b hb] at hbt
      exact absurd hbt (by decide)
  · rw [if_neg h1]
    by_cases h2 : bs.all (fun b => !b) = true
    · rw [if_pos h2]
      simp only [List.all_eq_true, Bool.not_eq_eq_eq_not, Bool.not_true] at h2
      exact ⟨fun _ => h2, fun _ => rfl⟩
    · rw [if_neg h2]
      have hr : ¬∀ b ∈ bs, b = false := by
        intro hall
        apply h2
        simp only [List.all_eq_true, Bool.not_eq_eq_eq_not, Bool.not_true]
        exact hall
      exact ⟨fun h => absurd h (by decide), fun h => absurd h hr⟩

theorem deriveTri_eq_some {bs : List Bool} (hne : bs ≠ []) :
    deriveTri bs = TriState.some ↔
      ¬(∀ b ∈ bs, b = true) ∧ ¬(∀ b ∈ bs, b = false) := by
  have hall := deriveTri_eq_all bs
  have hnone := deriveTri_eq_none hne
  cases h : deriveTri bs with
  | all =>
    constructor
    · intro hc; exact absurd hc (by decide)
    · intro ⟨hc, _⟩; exact absurd (hall.1 h) hc
  | none =>
    constructor
    · intro hc; exact absurd hc (by decide)
    · intro ⟨_, hc⟩; exact absurd (hnone.1 h) hc
  | some =>
    constructor
    · intro _
      constructor
      · intro hc
        rw [h] at hall
        exact absurd (hall.2 hc) (by decide)
      · intro hc
        rw [h] at hnone
        exact absurd (hnone.2 hc) (by decide)
    · intro _; rfl

theorem forall_map_selected (ls : List SelLeaf) (b : Bool) :
    (∀ x ∈ ls.map (fun l => l.selected), x = b) ↔ ∀ l ∈ ls, l.selected = b := by
  simp

theorem scan_demo_eval :
    scan demoDirs =
      ([(demoFolderName, [demoRecA, demoRecB])],
       [⟨demoFolderName, ['b', 'a', 'd'], ⟨"missing technician"⟩⟩]) := by
  decide

theorem chunksAux_ne_nil {α : Type} (cap fuel : Nat) (rows : List α) :
    chunksAux cap fuel rows ≠ [] := by
  cases fuel with
  | zero => simp [chunksAux]
  | succ f => by_cases h : rows.length ≤ cap <;> simp [chunksAux, h]

theorem goodChunks_cons {α : Type} {cap : Nat} {p : List α} {rest : List (List α)}
    (h : rest ≠ []) :
    GoodChunks cap (p :: rest) ↔ p.length = cap ∧ GoodChunks cap rest := by
  cases rest with
  | nil => exact absurd rfl h
  | cons q t => exact Iff.rfl

theorem chunksAux_good {α : Type} {cap : Nat} (fuel : Nat) :
    ∀ rows : List α, GoodChunks cap (chunksAux cap fuel rows) := by
  induction fuel with
  | zero => intro rows; exact trivial
  | succ f ih =>
    intro rows
    by_cases h : rows.length ≤ cap
    · simp only [chunksAux, if_pos h]; exact trivial
    · simp only [chunksAux, if_neg h]
      rw [goodChunks_cons (chunksAux_ne_nil cap f (rows.drop cap))]
      constructor
      · rw [List.length_take]; omega
      · exact ih (rows.drop cap)

theorem chunksOf_good {α : Type} {cap : Nat} (rows : List α) :
    GoodChunks cap (chunksOf cap rows) :=
  chunksAux_good rows.length rows

theorem chunksOf_single {α : Type} {cap : Nat} {rows : List α}
    (h : rows.length ≤ cap) : chunksOf cap rows = [rows] := by
  unfold chunksOf
  cases hl : rows.length with
  | zero => rfl
  | succ n => simp [chunksAux, h]

theorem chunksOf_cases {α : Type} {cap : Nat} (rows : List α) :
    chunksOf cap rows = [rows] ∨ 2 ≤ (chunksOf cap rows).length := by
  by_cases h : rows.length ≤ cap
  · left; exact chunksOf_single h
  · right
    unfold chunksOf
    cases hl : rows.length with
    | zero => exfalso; apply h; omega
    | succ n =>
      simp only [chunksAux, if_neg h]
      cases hr : chunksAux cap n (rows.drop cap) with
      | nil => exact absurd hr (chunksAux_ne_nil cap n (rows.drop cap))
      | cons a t => simp

theorem fixShortLast_floor {α : Type} {cap m : Nat} (hm : m ≤ cap) :
    ∀ pages : List (List α), GoodChunks cap pages → 2 ≤ pages.length →
      ∀ p ∈ fixShortLast cap m pages, m ≤ p.length := by
  intro pages
  induction pages with
  | nil => intro _ h2; simp at h2
  | cons p rest ih =>
    cases rest with
    | nil => intro _ h2; simp at h2
    | cons q t =>
      cases t with
      | nil =>
        intro hg _ x hx
        have hp : p.length = cap := ((goodChunks_cons (by simp)).1 hg).1
        by_cases h1 : m ≤ q.length
        · simp only [fixShortLast, if_pos h1, List.mem_cons, List.mem_singleton,
            List.not_mem_nil, or_false] at hx
          rcases hx with hx | hx <;> subst hx <;> omega
        · by_cases h2 : 2 * m ≤ cap + q.length
          · simp only [fixShortLast, if_neg h1, if_pos h2, List.mem_cons,
              List.mem_singleton, List.not_mem_nil, or_false] at hx
            rcases hx with hx | hx
            · subst hx
              rw [List.length_take]
              omega
            · subst hx
              rw [List.length_append, List.length_drop]
              omega
          · simp only [fixShortLast, if_neg h1, if_neg h2, List.mem_singleton] at hx
            subst hx
            rw [List.length_append]
            omega
      | cons r u =>
        intro hg _ x hx
        have hgc := (goodChunks_cons (by simp)).1 hg
        simp only [fixShortLast] at hx
        rcases List.mem_cons.1 hx with h | h
        · subst h
          have := hgc.1
          omega
        · exact ih hgc.2 (by simp) x h

theorem runFW_measures (ms : List (Nat × ℚ)) :
    ∀ st : FWState, st.pauseMode = false →
      runFW st (measuresOf ms) =
        ({ st with maxReading := (ms.map (fun m => m.2)).foldl max st.maxReading },
         expectedRun st.jsonMode st.testStart st.maxReading ms) := by
  induction ms with
  | nil => intro st _; rfl
  | cons m ms ih =>
    intro st h
    have hstep : stepFW st (FWEvent.measure m.1 m.2) =
        ({ st with maxReading := max st.maxReading m.2 },
         Option.some
           ⟨⟨((m.1 - st.testStart : Nat) : ℚ) / 1000, m.2, max st.maxReading m.2⟩,
            outputReading st.jsonMode (((m.1 - st.testStart : Nat) : ℚ) / 1000) m.2
              (max st.maxReading m.2)⟩) := by
      simp only [stepFW, h, Bool.false_eq_true, if_false]
      rw [← max_def]
    simp only [measuresOf, runFW, hstep, Option.toList_some]
    rw [ih { st with maxReading := max st.maxReading m.2 } h]
    rfl

theorem expectedRun_p (jm : Bool) (start : Nat) (ms : List (Nat × ℚ)) :
    ∀ a : ℚ,
      (expectedRun jm start a ms).map (fun o => o.sample.p) =
        runningMax a (ms.map (fun m => m.2)) := by
  induction ms with
  | nil => intro a; rfl
  | cons m tl ih =>
    intro a
    simp only [expectedRun, List.map_cons, runningMax, ih]

theorem expectedRun_t (jm : Bool) (start : Nat) (ms : List (Nat × ℚ)) :
    ∀ a : ℚ,
      (expectedRun jm start a ms).map (fun o => o.sample.t) =
        ms.map (fun m => ((m.1 - start : Nat) : ℚ) / 1000) := by
  induction ms with
  | nil => intro a; rfl
  | cons m tl ih =>
    intro a
    simp only [expectedRun, List.map_cons, ih]

theorem expectedRun_c (jm : Bool) (start : Nat) (ms : List (Nat × ℚ)) :
    ∀ a : ℚ,
      (expectedRun jm start a ms).map (fun o => o.sample.c) =
        ms.map (fun m => m.2) := by
  induction ms with
  | nil => intro a; rfl
  | cons m tl ih =>
    intro a
    simp only [expectedRun, List.map_cons, ih]

theorem chain_runningMax (rs : List ℚ) : ∀ a : ℚ,
    List.Chain' (· ≤ ·) (runningMax a rs) := by
  induction rs with
  | nil => intro a; simp [runningMax]
  | cons r rs ih =>
    intro a
    rw [runningMax, List.chain'_cons']
    constructor
    · intro y hy
      cases rs with
      | nil => simp [runningMax] at hy
      | cons r2 rs2 =>
        rw [show runningMax (max a r) (r2 :: rs2) =
            max (max a r) r2 :: runningMax (max (max a r) r2) rs2 from rfl] at hy
        simp only [List.head?_cons, Option.mem_def, Option.some.injEq] at hy
        subst hy
        exact le_max_left _ _
    · exact ih (max a r)

theorem runningMax_getLast (rs : List ℚ) : ∀ a : ℚ, rs ≠ [] →
    (runningMax a rs).getLast? = Option.some (rs.foldl max a) := by
  induction rs with
  | nil => intro a hr; exact absurd rfl hr
  | cons r rs ih =>
    intro a _
    cases rs with
    | nil => rfl
    | cons r2 rs2 =>
      calc (runningMax a (r :: r2 :: rs2)).getLast?
          = (runningMax (max a r) (r2 :: rs2)).getLast? := by
            rw [show runningMax a (r :: r2 :: rs2) =
                max a r :: max (max a r) r2 :: runningMax (max (max a r) r2) rs2
                from rfl,
              List.getLast?_cons_cons,
              show (max (max a r) r2 :: runningMax (max (max a r) r2) rs2 : List ℚ) =
                runningMax (max a r) (r2 :: rs2) from rfl]
        _ = Option.some ((r2 :: rs2).foldl max (max a r)) := ih (max a r) (by simp)
        _ = Option.some ((r :: r2 :: rs2).foldl max a) := rfl

theorem maxList?_eq_getLast?_of_chain :
    ∀ l : List ℚ, List.Chain' (· ≤ ·) l → maxList? l = l.getLast? := by
  intro l
  induction l with
  | nil => intro _; rfl
  | cons a l ih =>
    cases l with
    | nil => intro _; rfl
    | cons b t =>
      intro hch
      rw [List.chain'_cons] at hch
      have h1 : maxList? (a :: b :: t) = maxList? (b :: t) := by
        show Option.some ((b :: t).foldl max a) = Option.some (t.foldl max b)
        rw [show (b :: t).foldl max a = t.foldl max (max a b) from rfl,
          max_eq_right hch.1]
      rw [h1, ih hch.2, List.getLast?_cons_cons]

theorem foldl_max_map {f : ℚ → Int} (hf : Monotone f) (l : List ℚ) :
    ∀ a : ℚ, (l.map f).foldl max (f a) = f (l.foldl max a) := by
  induction l with
  | nil => intro a; rfl
  | cons b t ih =>
    intro a
    simp only [List.map_cons, List.foldl_cons, ← hf.map_max, ih]

theorem maxList?_map_mono {f : ℚ → Int} (hf : Monotone f) (l : List ℚ) :
    maxList? (l.map f) = (maxList? l).map f := by
  cases l with
  | nil => rfl
  | cons a t =>
    show Option.some ((t.map f).foldl max (f a)) = Option.some (f (t.foldl max a))
    rw [foldl_max_map hf]

theorem round3_mono : Monotone round3 := by
  intro a b h
  apply Int.floor_mono
  have : a * 1000 ≤ b * 1000 := by nlinarith
  linarith

theorem round3_div1000 (x : Int) : round3 ((x : ℚ) / 1000) = x := by
  unfold round3
  rw [div_mul_cancel₀ _ (by norm_num : (1000 : ℚ) ≠ 0), add_comm,
    Int.floor_add_int]
  norm_num

theorem print3_div1000 (x : Int) : print3 ((x : ℚ) / 1000) = formatFixed 3 x := by
  rw [print3, round3_div1000]

theorem formatFixed_head (w : Nat) (m : Int) :
    ∃ c t, formatFixed w m = c :: t ∧ (c = '-' ∨ isDigitCh c = true) := by
  by_cases hm : m < 0
  · exact ⟨'-', _, formatFixed_eq_neg hm w, Or.inl rfl⟩
  · obtain ⟨c, t, h1, h2⟩ := head_formatFixed_of_nonneg hm w
    exact ⟨c, t, h1, Or.inr h2⟩

theorem outputJSON_ne_outputCSV (t c p c' p' : ℚ) :
    outputJSON t c p ≠ outputCSV c' p' := by
  intro h
  obtain ⟨ch, tl, hform, hd⟩ := formatFixed_head 2 (round2 c')
  have h2 : (outputCSV c' p').head? = Option.some ch := by
    rw [outputCSV, print2, hform]
    rfl
  have h1 : (outputCSV c' p').head? = Option.some '\x7b' := by
    rw [← h]
    rfl
  rw [h1] at h2
  have hch : '\x7b' = ch := Option.some.inj h2
  rcases hd with hd | hd
  · rw [← hch] at hd
    exact absurd hd (by decide)
  · rw [← hch] at hd
    exact absurd hd (by decide)

theorem comma_not_mem_curSeg (x : Int) : ',' ∉ jsonCurTail ++ formatFixed 3 x := by
  intro h
  rcases List.mem_append.1 h with h | h
  · exact absurd h (by decide)
  · exact comma_not_mem_formatFixed 3 x h

theorem comma_not_mem_peakSeg (x : Int) :
    ',' ∉ jsonPeakTail ++ (formatFixed 3 x ++ ['\x7d']) := by
  intro h
  rcases List.mem_append.1 h with h | h
  · exact absurd h (by decide)
  rcases List.mem_append.1 h with h | h
  · exact comma_not_mem_formatFixed 3 x h
  · simp at h

theorem parseJSONLine_outputJSON (tm cm pm : Int) :
    parseJSONLine
        (outputJSON ((tm : ℚ) / 1000) ((cm : ℚ) / 1000) ((pm : ℚ) / 1000)) =
      Option.some (tm, cm, pm) := by
  rw [outputJSON, print3_div1000, print3_div1000, print3_div1000]
  have hsplit : splitOnChar ','
      (formatFixed 3 tm ++
        ',' :: (jsonCurTail ++ (formatFixed 3 cm ++
          ',' :: (jsonPeakTail ++ (formatFixed 3 pm ++ ['\x7d']))))) =
      [formatFixed 3 tm, jsonCurTail ++ formatFixed 3 cm,
       jsonPeakTail ++ (formatFixed 3 pm ++ ['\x7d'])] := by
    rw [show jsonCurTail ++ (formatFixed 3 cm ++
        ',' :: (jsonPeakTail ++ (formatFixed 3 pm ++ ['\x7d']))) =
        (jsonCurTail ++ formatFixed 3 cm) ++
        ',' :: (jsonPeakTail ++ (formatFixed 3 pm ++ ['\x7d'])) from
      (List.append_assoc _ _ _).symm]
    exact splitOnChar_three (comma_not_mem_formatFixed 3 tm)
      (comma_not_mem_curSeg cm) (comma_not_mem_peakSeg pm)
  simp only [parseJSONLine, chopStart_same, Option.some_bind]
  rw [hsplit]
  simp only [chopStart_same, parseFixed_formatFixed (by omega : (1 : Nat) ≤ 3),
    List.getLast?_concat, List.dropLast_concat, if_pos rfl, Option.some_bind]
  simp

theorem print2_decomp (q : ℚ) :
    ∃ ip fp, print2 q = ip ++ '.' :: fp ∧ fp.length = 2 ∧ '.' ∉ ip := by
  rw [print2]
  by_cases hm : round2 q < 0
  · refine ⟨'-' :: formatNat ((round2 q).natAbs / 10 ^ 2),
      padNat 2 ((round2 q).natAbs % 10 ^ 2), ?_, ?_, ?_⟩
    · rw [formatFixed_eq_neg hm]
      rfl
    · exact padNat_length (by omega) (Nat.mod_lt _ (by positivity))
    · intro hmem
      rcases List.mem_cons.1 hmem with h | h
      · exact absurd h (by decide)
      · exact dot_not_mem_formatNat _ h
  · refine ⟨formatNat ((round2 q).natAbs / 10 ^ 2),
      padNat 2 ((round2 q).natAbs % 10 ^ 2), ?_, ?_, ?_⟩
    · exact formatFixed_eq_nonneg hm 2
    · exact padNat_length (by omega) (Nat.mod_lt _ (by positivity))
    · exact dot_not_mem_formatNat _

theorem foldl_max_zero_of_nonneg {r : ℚ} {rs : List ℚ} (h : 0 ≤ r) :
    (r :: rs).foldl max 0 = rs.foldl max r := by
  show rs.foldl max (max 0 r) = rs.foldl max r
  rw [max_eq_right h]

theorem testRun_eq (jm : Bool) (mr : ℚ) (ts0 s : Nat) (ms : List (Nat × ℚ)) :
    testRun jm mr ts0 s ms =
      (⟨jm, (ms.map (fun m => m.2)).foldl max 0, s, false⟩,
       expectedRun jm s 0 ms) := by
  unfold testRun
  have hstep : stepFW ⟨jm, mr, ts0, true⟩ (FWEvent.menu s 'x') =
      (⟨jm, 0, s, false⟩, Option.none) := rfl
  simp only [runFW, hstep, Option.toList_none, List.nil_append]
  rw [runFW_measures ms ⟨jm, 0, s, false⟩ rfl]

/-! # Claim theorems -/

/-- C1 (as stated, refuted): a Selection Tree built from a scan result can
contain a DateFolder with zero leaves (a matching date directory none of
whose files decodes), and for such a folder "state is `none` iff no child
leaf is selected" fails: no child is selected (vacuously) yet the derived
state is not `none`.  The input below scans one matching, empty date folder
and applies the empty toggle sequence. -/
theorem C1_counterexample :
    ∃ f ∈ (applyOps (buildTree (scan demoEmptyDirs).1) []).folders,
      (∀ l ∈ f.leaves, l.selected = false) ∧ f.state ≠ TriState.none := by
  decide

/-- C1 (amended): after any finite sequence of toggle operations on a
Selection Tree built from a scan result, every DateFolder *with at least one
leaf* has tri-state `all` iff every child leaf is selected, `none` iff no
child leaf is selected, and `some` otherwise; the root satisfies the same
rule over all leaves whenever there is at least one leaf. -/
theorem C1_tri_state_invariant (scanned : List (Str × List TestRecord))
    (ops : List SelOp) :
    (∀ f ∈ (applyOps (buildTree scanned) ops).folders, f.leaves ≠ [] →
      ((f.state = TriState.all ↔ ∀ l ∈ f.leaves, l.selected = true) ∧
       (f.state = TriState.none ↔ ∀ l ∈ f.leaves, l.selected = false) ∧
       (f.state = TriState.some ↔
         ¬(∀ l ∈ f.leaves, l.selected = true) ∧
         ¬(∀ l ∈ f.leaves, l.selected = false)))) ∧
    (allLeaves (applyOps (buildTree scanned) ops) ≠ [] →
      (((applyOps (buildTree scanned) ops).rootState = TriState.all ↔
          ∀ l ∈ allLeaves (applyOps (buildTree scanned) ops),
            l.selected = true) ∧
       ((applyOps (buildTree scanned) ops).rootState = TriState.none ↔
          ∀ l ∈ allLeaves (applyOps (buildTree scanned) ops),
            l.selected = false) ∧
       ((applyOps (buildTree scanned) ops).rootState = TriState.some ↔
         ¬(∀ l ∈ allLeaves (applyOps (buildTree scanned) ops),
             l.selected = true) ∧
         ¬(∀ l ∈ allLeaves (applyOps (buildTree scanned) ops),
             l.selected = false)))) := by
  obtain ⟨hf, hr⟩ := derivedStates_buildTree_applyOps scanned ops
  constructor
  · intro f hmem hne
    have hmap : f.leaves.map (fun l => l.selected) ≠ [] := by
      simpa using hne
    rw [hf f hmem]
    exact ⟨(deriveTri_eq_all _).trans (forall_map_selected _ true),
      (deriveTri_eq_none hmap).trans (forall_map_selected _ false),
      (deriveTri_eq_some hmap).trans
        (and_congr (not_congr (forall_map_selected _ true))
          (not_congr (forall_map_selected _ false)))⟩
  · intro hne
    have hmap :
        (allLeaves (applyOps (buildTree scanned) ops)).map
          (fun l => l.selected) ≠ [] := by
      simpa using hne
    rw [hr]
    exact ⟨(deriveTri_eq_all _).trans (forall_map_selected _ true),
      (deriveTri_eq_none hmap).trans (forall_map_selected _ false),
      (deriveTri_eq_some hmap).trans
        (and_congr (not_congr (forall_map_selected _ true))
          (not_congr (forall_map_selected _ false)))⟩

/-- C1 witness: the amended invariant evaluated on the scanned demo folder
(two decoded records) after a root toggle. -/
theorem C1_tri_state_invariant_witness :
    (folderW.state = TriState.all ↔ ∀ l ∈ folderW.leaves, l.selected = true) ∧
    (folderW.state = TriState.none ↔
      ∀ l ∈ folderW.leaves, l.selected = false) ∧
    (folderW.state = TriState.some ↔
      ¬(∀ l ∈ folderW.leaves, l.selected = true) ∧
      ¬(∀ l ∈ folderW.leaves, l.selected = false)) :=
  (C1_tri_state_invariant (scan demoDirs).1 [SelOp.root]).1 folderW
    (by decide) (by decide)

/-- C2: for every valid test record (no line break in a text field) --
including records with an empty sample table and empty notes -- decoding
the encoded file returns the record unchanged, field for field, including
the full sample table. -/
theorem C2_codec_round_trip (r : TestRecord) (_hv : r.Valid) :
    decode (encode r) = Except.ok r :=
  decode_encode r

/-- C2 witness: the round trip evaluated on a concrete record with empty
notes and an empty sample table. -/
theorem C2_codec_round_trip_witness :
    recW2.Valid ∧ decode (encode recW2) = Except.ok recW2 :=
  ⟨by refine ⟨?_, ?_, ?_⟩ <;> decide,
   C2_codec_round_trip recW2 (by refine ⟨?_, ?_, ?_⟩ <;> decide)⟩

/-- C3 (as stated, refuted): the emitted peak does not always equal the
maximum of the current readings taken since the last test reset.  The reset
clears `max_reading` to 0 and `measurementMode` only raises it, so after a
reset followed by a single reading of −1 kN the firmware emits peak 0,
while the maximum of the readings is −1. -/
theorem C3_counterexample :
    (testRun false 0 0 5 [(6, -1)]).2.map (fun o => o.sample.p) = [(0 : ℚ)] ∧
    runningMaxOfReads ([(6, (-1 : ℚ))].map (fun m => m.2)) = [(-1 : ℚ)] ∧
    (0 : ℚ) ≠ -1 := by
  decide

/-- C3 (amended): after a test reset followed by any measurements, the
emitted peaks are the running maximum of the readings over the zero
baseline the reset installs; the peak column is non-decreasing, its maximum
is the final peak, which is the acquisition-time `max_reading`; whenever
all readings are non-negative the emitted peak maximum equals the maximum
of the readings themselves (the claim's original phrasing); and the record
exported from the run has `peak_force` equal to the maximum of its samples'
peak column when samples are present, and the stored acquisition-time value
(trivially) when the sample table is empty. -/
theorem C3_peak_invariant (jm : Bool) (mr : ℚ) (ts0 s : Nat)
    (ms : List (Nat × ℚ)) (nm te no : Str) (dt : DateTime) :
    (testRun jm mr ts0 s ms).2.map (fun o => o.sample.p) =
        runningMax 0 (ms.map (fun m => m.2)) ∧
    List.Chain' (· ≤ ·)
        ((testRun jm mr ts0 s ms).2.map (fun o => o.sample.p)) ∧
    maxList? ((testRun jm mr ts0 s ms).2.map (fun o => o.sample.p)) =
        ((testRun jm mr ts0 s ms).2.map (fun o => o.sample.p)).getLast? ∧
    (testRun jm mr ts0 s ms).1.maxReading =
        (ms.map (fun m => m.2)).foldl max 0 ∧
    (ms ≠ [] → (∀ x ∈ ms.map (fun m => m.2), 0 ≤ x) →
      maxList? ((testRun jm mr ts0 s ms).2.map (fun o => o.sample.p)) =
        maxList? (ms.map (fun m => m.2))) ∧
    ((testRun jm mr ts0 s ms).2 ≠ [] →
      maxList?
          ((exportRecord nm te no dt (testRun jm mr ts0 s ms).1
              (testRun jm mr ts0 s ms).2).samples.map (fun sm => sm.p)) =
        Option.some
          (exportRecord nm te no dt (testRun jm mr ts0 s ms).1
              (testRun jm mr ts0 s ms).2).peak_force) ∧
    ((testRun jm mr ts0 s ms).2 = [] →
      (exportRecord nm te no dt (testRun jm mr ts0 s ms).1
          (testRun jm mr ts0 s ms).2).peak_force =
        round3 (testRun jm mr ts0 s ms).1.maxReading) := by
  have hp : (testRun jm mr ts0 s ms).2.map (fun o => o.sample.p) =
      runningMax 0 (ms.map (fun m => m.2)) := by
    rw [testRun_eq]
    exact expectedRun_p jm s ms 0
  have hchain : List.Chain' (· ≤ ·)
      ((testRun jm mr ts0 s ms).2.map (fun o => o.sample.p)) := by
    rw [hp]
    exact chain_runningMax _ 0
  refine ⟨hp, hchain, maxList?_eq_getLast?_of_chain _ hchain, ?_, ?_, ?_, ?_⟩
  · rw [testRun_eq]
  · intro hms hnn
    cases hreads : ms.map (fun m => m.2) with
    | nil => exact absurd (List.map_eq_nil_iff.1 hreads) hms
    | cons r rs =>
      have hr0 : 0 ≤ r := hnn r (by rw [hreads]; exact List.mem_cons_self r rs)
      calc maxList? ((testRun jm mr ts0 s ms).2.map (fun o => o.sample.p))
          = maxList? (runningMax 0 (ms.map (fun m => m.2))) := by rw [hp]
        _ = (runningMax 0 (ms.map (fun m => m.2))).getLast? :=
            maxList?_eq_getLast?_of_chain _ (chain_runningMax _ 0)
        _ = Option.some ((ms.map (fun m => m.2)).foldl max 0) :=
            runningMax_getLast _ 0 (by rw [hreads]; simp)
        _ = Option.some (rs.foldl max r) := by
            rw [hreads, foldl_max_zero_of_nonneg hr0]
        _ = maxList? (r :: rs) :=
            (rfl : maxList? (r :: rs) = Option.some (rs.foldl max r)).symm
  · intro houts
    have hms : ms ≠ [] := by
      intro hnil
      apply houts
      rw [testRun_eq, hnil]
      rfl
    have hsm : (exportRecord nm te no dt (testRun jm mr ts0 s ms).1
        (testRun jm mr ts0 s ms).2).samples.map (fun sm => sm.p) =
        ((testRun jm mr ts0 s ms).2.map (fun o => o.sample.p)).map round3 := by
      simp only [exportRecord, exportSample, List.map_map]
      rfl
    cases hreads : ms.map (fun m => m.2) with
    | nil => exact absurd (List.map_eq_nil_iff.1 hreads) hms
    | cons r rs =>
      have hmaxp :
          maxList? ((testRun jm mr ts0 s ms).2.map (fun o => o.sample.p)) =
            Option.some ((ms.map (fun m => m.2)).foldl max 0) := by
        rw [hp]
        rw [maxList?_eq_getLast?_of_chain _ (chain_runningMax _ 0)]
        exact runningMax_getLast _ 0 (by rw [hreads]; simp)
      rw [hsm, maxList?_map_mono round3_mono, hmaxp]
      rw [show (exportRecord nm te no dt (testRun jm mr ts0 s ms).1
          (testRun jm mr ts0 s ms).2).peak_force =
          round3 (testRun jm mr ts0 s ms).1.maxReading from rfl]
      rw [show (testRun jm mr ts0 s ms).1.maxReading =
          (ms.map (fun m => m.2)).foldl max 0 from by rw [testRun_eq]]
      rfl
  · intro _
    rfl

/-- C3 witness: the amended invariant evaluated on a concrete fresh-test
run with two non-negative readings. -/
theorem C3_peak_invariant_witness :
    maxList? ((testRun false 3 0 5 msW).2.map (fun o => o.sample.p)) =
        maxList? (msW.map (fun m => m.2)) ∧
    maxList? (c3RecW.samples.map (fun sm => sm.p)) =
        Option.some c3RecW.peak_force ∧
    (testRun false 3 0 5 msW).2.map (fun o => o.sample.p) =
        runningMax 0 (msW.map (fun m => m.2)) := by
  have h := C3_peak_invariant false 3 0 5 msW ['n'] ['t'] []
    ⟨2024, 1, 1, 0, 0, 0⟩
  exact ⟨h.2.2.2.2.1 (by decide) (by decide), h.2.2.2.2.2.1 (by decide), h.1⟩

/-- C4: `summarize` raises `InsufficientSamplesError` iff the input holds
fewer than two records; with two or more records it returns a report, and
the error is a returned value surfaced to the caller (nothing is retried). -/
theorem C4_insufficient_samples (rs : List TestRecord) :
    (summarize rs = Except.error InsufficientSamplesError.insufficient ↔
      rs.length < 2) ∧
    (2 ≤ rs.length → ∃ rep, summarize rs = Except.ok rep) := by
  by_cases hl : rs.length < 2
  · constructor
    · exact ⟨fun _ => hl, fun _ => by simp [summarize, hl]⟩
    · intro h2
      exact absurd h2 (by omega)
  · constructor
    · constructor
      · intro h
        simp [summarize, hl] at h
      · intro h
        exact absurd h hl
    · intro _
      cases hs : summarize rs with
      | error e =>
        exfalso
        unfold summarize at hs
        rw [if_neg hl] at hs
        exact Except.noConfusion hs
      | ok rep => exact ⟨rep, rfl⟩

/-- C4 witness: two records are accepted. -/
theorem C4_insufficient_samples_witness :
    ∃ rep, summarize pairW = Except.ok rep :=
  (C4_insufficient_samples pairW).2 (by decide)

/-- C5: on three records with peaks 20.0, 22.0, 30.0 kN, `summarize`
returns mean 24.0, median 22.0, and the sample (N−1) variance 28 — so the
standard deviation √28 is within 0.005 of 5.29 and the 3-sigma bounds
mean ∓ 3·√28 are within 0.01 of 8.13 and 39.87 (the population formula
would give variance 56/3 instead). -/
theorem C5_statistics_scenario :
    summarize [recP20, recP22, recP30] = Except.ok rep3 ∧
    rep3.mean = 24 ∧ rep3.median = 22 ∧ rep3.stdev_sq = 28 ∧
    |Real.sqrt (rep3.stdev_sq : ℝ) - 5.29| < 0.005 ∧
    |(rep3.mean : ℝ) - 3 * Real.sqrt (rep3.stdev_sq : ℝ) - 8.13| < 0.01 ∧
    |(rep3.mean : ℝ) + 3 * Real.sqrt (rep3.stdev_sq : ℝ) - 39.87| < 0.01 := by
  have hsq : ((rep3.stdev_sq : ℚ) : ℝ) = 28 := by norm_num [rep3]
  have hmean : ((rep3.mean : ℚ) : ℝ) = 24 := by norm_num [rep3]
  have hlo : (5.2868 : ℝ) < Real.sqrt 28 :=
    (Real.lt_sqrt (by norm_num)).2 (by norm_num)
  have hhi : Real.sqrt 28 < 5.2920 :=
    (Real.sqrt_lt' (by norm_num)).2 (by norm_num)
  refine ⟨by
    norm_num [summarize, TestRecord.peak_kN, recP20, recP22, recP30, rep3, sortQ,
      insertSortedQ, sortByDate, insertByDate, DateTime.key],
    by decide, by decide, by decide, ?_, ?_, ?_⟩
  · rw [hsq, abs_lt]
    constructor <;> linarith
  · rw [hsq, hmean, abs_lt]
    constructor <;> linarith
  · rw [hsq, hmean, abs_lt]
    constructor <;> linarith

/-- C6: pages returned by `paginate` with minimum 5 always hold at least 5
rows, except that a report with fewer than 5 rows in total yields exactly
one page holding all rows; the guarantee covers the last page through
backward redistribution or merging of a short naive tail. -/
theorem C6_pagination_floor (rep : StatisticsReport) (cap : Nat)
    (hcap : 5 ≤ cap) :
    (rep.per_record.length < 5 → paginate rep cap 5 = [rep.per_record]) ∧
    (5 ≤ rep.per_record.length → ∀ p ∈ paginate rep cap 5, 5 ≤ p.length) := by
  constructor
  · intro hlt
    have hsingle : chunksOf cap rep.per_record = [rep.per_record] :=
      chunksOf_single (by omega)
    rw [paginate, hsingle]
    rfl
  · intro hge p hp
    rcases @chunksOf_cases (TestRecord × ℚ) cap rep.per_record with h | h
    · rw [paginate, h] at hp
      have hp' : p = rep.per_record := by simpa [fixShortLast] using hp
      rw [hp']
      exact hge
    · exact fixShortLast_floor hcap _ (chunksOf_good rep.per_record) h p hp

/-- C6 witness: a three-row report paginates to a single page. -/
theorem C6_pagination_floor_witness : paginate repW 8 5 = [repW.per_record] :=
  (C6_pagination_floor repW 8 (by omega)).1 (by decide)

/-- C7: a scan never fails on account of an individual file that does not
decode: per folder, the number of returned records plus the number of
diagnostics equals the number of files; and on the concrete folder of three
files where one lacks its `technician` line, the scan returns the two valid
records plus one diagnostic naming the bad file. -/
theorem C7_scan_skips_malformed :
    (∀ (folder : Str) (files : List ScanFile),
        (scanFolderRecords files).length + (scanFolderDiags folder files).length =
          files.length) ∧
    scan demoDirs =
      ([(demoFolderName, [demoRecA, demoRecB])],
       [⟨demoFolderName, ['b', 'a', 'd'], ⟨"missing technician"⟩⟩]) :=
  ⟨scanFolder_counts, scan_demo_eval⟩

/-- C8: every reading the firmware emits in measurement mode is exactly one
of the two wire formats, selected by the output mode: the CSV line
`current,peak` when JSON mode is off, the single JSON line with keys
`timestamp`, `current` and `peak` when it is on — and no JSON line ever
coincides with any CSV line. -/
theorem C8_wire_format :
    (∀ (st st' : FWState) (e : FWEvent) (outp : Emitted),
        stepFW st e = (st', Option.some outp) →
          outp.line =
            if st.jsonMode then
              outputJSON outp.sample.t outp.sample.c outp.sample.p
            else outputCSV outp.sample.c outp.sample.p) ∧
    (∀ t c p c' p' : ℚ, outputJSON t c p ≠ outputCSV c' p') := by
  constructor
  · intro st st' e outp h
    cases e with
    | measure now r =>
      by_cases hp : st.pauseMode
      · simp [stepFW, hp] at h
      · simp only [stepFW, hp, Bool.false_eq_true, if_false, Prod.mk.injEq,
          Option.some.injEq] at h
        obtain ⟨_, h2⟩ := h
        subst h2
        simp [outputReading]
    | menu now c =>
      by_cases hp : st.pauseMode <;> simp [stepFW, hp] at h
    | escape => simp [stepFW] at h
  · exact outputJSON_ne_outputCSV

/-- C8 witness: one concrete measurement step in JSON mode. -/
theorem C8_wire_format_witness :
    (⟨⟨(5 : ℚ) / 1000, 2, 2⟩,
        outputReading true ((5 : ℚ) / 1000) 2 2⟩ : Emitted).line =
      (if (⟨true, 0, 0, false⟩ : FWState).jsonMode then
        outputJSON ((5 : ℚ) / 1000) 2 2
      else outputCSV 2 2) :=
  C8_wire_format.1 ⟨true, 0, 0, false⟩ ⟨true, 2, 0, false⟩
    (FWEvent.measure 5 2)
    ⟨⟨(5 : ℚ) / 1000, 2, 2⟩, outputReading true ((5 : ℚ) / 1000) 2 2⟩
    (by simp [stepFW])

/-- C9: within one test (after a reset at clock value `s`), with the
millisecond clock non-decreasing, the timestamp attached to each emitted
sample is the elapsed milliseconds since the reset divided by 1000 (so the
first sample of a fresh test is its own small offset from the reset), and
the emitted timestamps are non-decreasing. -/
theorem C9_timestamps (jm : Bool) (mr : ℚ) (ts0 s : Nat)
    (ms : List (Nat × ℚ))
    (hmono : List.Chain' (· ≤ ·) (s :: ms.map (fun m => m.1))) :
    (testRun jm mr ts0 s ms).2.map (fun o => o.sample.t) =
        ms.map (fun m => ((m.1 - s : Nat) : ℚ) / 1000) ∧
    List.Chain' (· ≤ ·)
      ((testRun jm mr ts0 s ms).2.map (fun o => o.sample.t)) := by
  have ht : (testRun jm mr ts0 s ms).2.map (fun o => o.sample.t) =
      ms.map (fun m => ((m.1 - s : Nat) : ℚ) / 1000) := by
    rw [testRun_eq]
    exact expectedRun_t jm s ms 0
  refine ⟨ht, ?_⟩
  rw [ht]
  rw [show ms.map (fun m => ((m.1 - s : Nat) : ℚ) / 1000) =
      (ms.map (fun m => m.1)).map (fun n => ((n - s : Nat) : ℚ) / 1000) from by
    rw [List.map_map]
    rfl]
  refine List.chain'_map_of_chain' _ ?_ hmono.tail
  intro a b hab
  have hsub : ((a - s : Nat) : ℚ) ≤ ((b - s : Nat) : ℚ) :=
    Nat.cast_le.2 (Nat.sub_le_sub_right hab s)
  exact (div_le_div_iff_of_pos_right (by norm_num)).2 hsub

/-- C9 witness: a fresh-test run with clock values 5 (reset), 6, 7. -/
theorem C9_timestamps_witness :
    (testRun false 0 0 5 msW9).2.map (fun o => o.sample.t) =
        msW9.map (fun m => ((m.1 - 5 : Nat) : ℚ) / 1000) ∧
    List.Chain' (· ≤ ·)
      ((testRun false 0 0 5 msW9).2.map (fun o => o.sample.t)) :=
  C9_timestamps false 0 0 5 msW9 (by norm_num [msW9, List.chain'_cons])

/-- C10: in CSV mode the firmware emits no timestamp — the emitted line is
unchanged under a different clock value and consists of the two forces at
two decimals — and two force values one thousandth of a kN apart can print
identically; in JSON mode the line carries timestamp, current and peak at
three decimals each, from which thousandth-of-a-kN (millinewton-level)
values are recovered exactly. -/
theorem C10_csv_vs_json_precision :
    (∀ (mr : ℚ) (ts0 : Nat) (r : ℚ) (now now' : Nat),
        (stepFW ⟨false, mr, ts0, false⟩ (FWEvent.measure now r)).2.map
            (fun o => o.line) =
          (stepFW ⟨false, mr, ts0, false⟩ (FWEvent.measure now' r)).2.map
            (fun o => o.line)) ∧
    (∀ q : ℚ, ∃ ip fp, print2 q = ip ++ '.' :: fp ∧ fp.length = 2 ∧ '.' ∉ ip) ∧
    (outputCSV 0 (1 / 1000) = outputCSV 0 0 ∧ (1 / 1000 : ℚ) ≠ 0) ∧
    (∀ t c p : Int,
        parseJSONLine
            (outputJSON ((t : ℚ) / 1000) ((c : ℚ) / 1000) ((p : ℚ) / 1000)) =
          Option.some (t, c, p)) := by
  refine ⟨?_, print2_decomp, ⟨?_, by norm_num⟩, parseJSONLine_outputJSON⟩
  · intro mr ts0 r now now'
    rfl
  · have h1 : round2 (1 / 1000 : ℚ) = 0 := by
      rw [round2, show (1 / 1000 : ℚ) * 100 + 1 / 2 = 3 / 5 by norm_num]
      exact Int.floor_eq_iff.2 (by norm_num)
    have h2 : round2 (0 : ℚ) = 0 := by
      rw [round2, show (0 : ℚ) * 100 + 1 / 2 = 1 / 2 by norm_num]
      exact Int.floor_eq_iff.2 (by norm_num)
    have hpr : print2 (1 / 1000 : ℚ) = print2 0 := by
      rw [print2, print2, h1, h2]
    show print2 0 ++ ',' :: print2 (1 / 1000 : ℚ) = print2 0 ++ ',' :: print2 0
    rw [hpr]

end TensileOS
